import Mathlib

/-!
Verification of the zirv-macros helper library (src/lib.rs).

The development shallowly embeds the three groups of helpers that carry the
design content of the crate:

* the bounded-retry executors `with_retry!` and `retry_async!` (src/lib.rs,
  lines 173-189 and 201-218), embedded as `withRetry` / `retryAsync` over a
  per-attempt outcome schedule, producing both the final result and the
  sequence of observable events (operation invocations and inter-attempt
  sleeps);
* the shallow JSON merge `json_merge!` (lines 134-144), embedded as
  `json_merge` over an association-list model of `serde_json` objects;
* the timing wrappers `time_it!` (lines 111-119) and `log_duration!`
  (lines 250-258), embedded as state-passing functions over an explicit
  world state (clock, stdout, tracing log).

Machine integers of the source are modelled as `Nat`: the attempt counter is
a small loop counter and the delay is a millisecond count, neither of which
approaches an overflow boundary in any scenario the specification quantifies
over.
-/

/-- Observable events of one retry session.  An `invoke` event records one
evaluation of the retried expression together with the value of the mutable
`attempts` counter immediately after the corresponding match arm ran (the
`Err` arm executes `attempts += 1`; the `Ok` arm leaves the counter
untouched).  A `delay` event records one inter-attempt sleep with its
duration in milliseconds. -/
inductive REvent (ε α : Type) where
  | invoke (attemptsAfter : Nat) (outcome : Except ε α)
  | delay (ms : Nat)

variable {ε α : Type}

/-- Loop body of the `with_retry!` macro (src/lib.rs lines 174-188).  The
retried expression is modelled as a schedule `op` giving the outcome of its
i-th evaluation (1-based).  `attempts` is the current value of the mutable
counter (0 at entry).  Returns the final result of the loop together with
the list of events the loop performed, in order.  The Rust loop:
match: on `Ok(val)` break with the value; on `Err(err)` increment
`attempts`, break with the error if `attempts >= $retries`, otherwise
sleep `$delay_ms` and iterate. -/
def withRetryAux (op : Nat → Except ε α) (retries delayMs attempts : Nat) :
    Except ε α × List (REvent ε α) :=
  match op (attempts + 1) with
  | .ok val => (.ok val, [.invoke attempts (.ok val)])
  | .error err =>
      if attempts + 1 ≥ retries then
        (.error err, [.invoke (attempts + 1) (.error err)])
      else
        let rest := withRetryAux op retries delayMs (attempts + 1)
        (rest.1, .invoke (attempts + 1) (.error err) :: .delay delayMs :: rest.2)
  termination_by retries - attempts
  decreasing_by omega

/-- The `with_retry!` macro: run the loop with the counter initialised to 0
(src/lib.rs line 175: `let mut attempts = 0;`). -/
def withRetry (op : Nat → Except ε α) (retries delayMs : Nat) :
    Except ε α × List (REvent ε α) :=
  withRetryAux op retries delayMs 0

/-- Loop body of the `retry_async!` macro (src/lib.rs lines 202-217).  The
source differs from `with_retry!` only in awaiting the expression and in
using `tokio::time::sleep` instead of `std::thread::sleep`; the suspension
is invisible to the value-level semantics, so the embedding has the same
shape. -/
def retryAsyncAux (op : Nat → Except ε α) (retries delayMs attempts : Nat) :
    Except ε α × List (REvent ε α) :=
  match op (attempts + 1) with
  | .ok val => (.ok val, [.invoke attempts (.ok val)])
  | .error err =>
      if attempts + 1 ≥ retries then
        (.error err, [.invoke (attempts + 1) (.error err)])
      else
        let rest := retryAsyncAux op retries delayMs (attempts + 1)
        (rest.1, .invoke (attempts + 1) (.error err) :: .delay delayMs :: rest.2)
  termination_by retries - attempts
  decreasing_by omega

/-- The `retry_async!` macro with the counter initialised to 0. -/
def retryAsync (op : Nat → Except ε α) (retries delayMs : Nat) :
    Except ε α × List (REvent ε α) :=
  retryAsyncAux op retries delayMs 0

/-- Whether an event is an operation invocation. -/
def isInvoke : REvent ε α → Bool
  | .invoke _ _ => true
  | .delay _ => false

/-- Whether an event is an inter-attempt sleep. -/
def isDelay : REvent ε α → Bool
  | .invoke _ _ => false
  | .delay _ => true

/-- Number of operation invocations recorded in an event list. -/
def invokeCount (t : List (REvent ε α)) : Nat :=
  t.countP isInvoke

/-- Number of inter-attempt sleeps recorded in an event list. -/
def delayCount (t : List (REvent ε α)) : Nat :=
  t.countP isDelay

/-- The values of the `attempts` counter recorded at each invocation, in
order. -/
def invokeAttempts (t : List (REvent ε α)) : List Nat :=
  t.filterMap fun e =>
    match e with
    | .invoke c _ => some c
    | .delay _ => none

/-- Model of `serde_json::Value`.  Numbers are modelled as integers; none of
the verified claims depends on numeric representation. -/
inductive Json where
  | null
  | bool (b : Bool)
  | num (n : Int)
  | str (s : String)
  | arr (elems : List Json)
  | obj (fields : List (String × Json))

/-- Model of `Value::as_object` / `as_object_mut`: `Some` exactly on the
`Object` variant.  A `serde_json::Map` is modelled as an association list
with pairwise-distinct keys. -/
def Json.asObject : Json → Option (List (String × Json))
  | .obj fields => some fields
  | _ => none

/-- Whether a JSON value is an object. -/
def Json.isObj : Json → Bool
  | .obj _ => true
  | _ => false

/-- Whether an association list binds a key. -/
def containsKey : List (String × Json) → String → Bool
  | [], _ => false
  | (k', _) :: rest, k => if k' = k then true else containsKey rest k

/-- Replace the value bound to a key, keeping the entry position. -/
def replaceKey : List (String × Json) → String → Json → List (String × Json)
  | [], _, _ => []
  | (k', v') :: rest, k, v =>
      if k' = k then (k, v) :: replaceKey rest k v
      else (k', v') :: replaceKey rest k v

/-- Model of `Map::insert`: overwrite the value when the key is present,
otherwise add a new entry. -/
def objInsert (fields : List (String × Json)) (k : String) (v : Json) :
    List (String × Json) :=
  if containsKey fields k then replaceKey fields k v else fields ++ [(k, v)]

/-- Model of `Map::get`: the value bound to a key, if any. -/
def objLookup : List (String × Json) → String → Option Json
  | [], _ => none
  | (k', v) :: rest, k => if k' = k then some v else objLookup rest k

/-- The `json_merge!` macro (src/lib.rs lines 135-143): when both arguments
are objects, insert every entry of the second object into the first
(`base_obj.insert(k.clone(), v.clone())` for each `(k, v)` of `other_obj`);
in every other case the first argument is returned unchanged. -/
def json_merge (base other : Json) : Json :=
  match base.asObject, other.asObject with
  | some baseObj, some otherObj =>
      Json.obj (otherObj.foldl (fun acc kv => objInsert acc kv.1 kv.2) baseObj)
  | _, _ => base

/-- Explicit world state threaded through the timing helpers: a monotone
clock read by `Instant::now`, the standard-output lines written by
`println!`, and the messages emitted through `tracing::info!`. -/
structure World where
  clock : Nat
  stdout : List String
  traced : List String

variable {β : Type}

/-- The `time_it!` macro (src/lib.rs lines 112-118): read the clock, run the
block, read the elapsed time, print one line, and return the block's
result. -/
def time_it (label : String) (block : World → β × World) (w : World) :
    β × World :=
  let start := w.clock
  let res := block w
  let duration := res.2.clock - start
  (res.1,
    { res.2 with
        stdout := res.2.stdout ++ [label ++ " took " ++ toString duration] })

/-- The `log_duration!` macro (src/lib.rs lines 251-257): identical to
`time_it!` except that the elapsed time is reported through
`tracing::info!` instead of `println!`. -/
def log_duration (label : String) (block : World → β × World) (w : World) :
    β × World :=
  let start := w.clock
  let res := block w
  let elapsed := res.2.clock - start
  (res.1,
    { res.2 with
        traced := res.2.traced ++ [label ++ " took " ++ toString elapsed] })

/-- Unfolding equation of `withRetryAux` when the current invocation
succeeds. -/
theorem withRetryAux_ok {op : Nat → Except ε α} {r d a : Nat} {v : α}
    (hop : op (a + 1) = .ok v) :
    withRetryAux op r d a = (.ok v, [.invoke a (.ok v)]) := by
  rw [withRetryAux.eq_def, hop]

/-- Unfolding equation of `withRetryAux` when the current invocation fails
and the incremented counter has reached the bound. -/
theorem withRetryAux_err_last {op : Nat → Except ε α} {r d a : Nat} {e : ε}
    (hop : op (a + 1) = .error e) (h : a + 1 ≥ r) :
    withRetryAux op r d a = (.error e, [.invoke (a + 1) (.error e)]) := by
  rw [withRetryAux.eq_def, hop]
  simp [h]

/-- Unfolding equation of `withRetryAux` when the current invocation fails
below the bound: a sleep happens and the loop iterates. -/
theorem withRetryAux_err_next {op : Nat → Except ε α} {r d a : Nat} {e : ε}
    (hop : op (a + 1) = .error e) (h : ¬ a + 1 ≥ r) :
    withRetryAux op r d a =
      ((withRetryAux op r d (a + 1)).1,
        .invoke (a + 1) (.error e) :: .delay d ::
          (withRetryAux op r d (a + 1)).2) := by
  rw [withRetryAux.eq_def, hop]
  simp [h]

/-- Unfolding equation of `retryAsyncAux` when the current invocation
succeeds. -/
theorem retryAsyncAux_ok {op : Nat → Except ε α} {r d a : Nat} {v : α}
    (hop : op (a + 1) = .ok v) :
    retryAsyncAux op r d a = (.ok v, [.invoke a (.ok v)]) := by
  rw [retryAsyncAux.eq_def, hop]

/-- Unfolding equation of `retryAsyncAux` when the current invocation fails
at the bound. -/
theorem retryAsyncAux_err_last {op : Nat → Except ε α} {r d a : Nat} {e : ε}
    (hop : op (a + 1) = .error e) (h : a + 1 ≥ r) :
    retryAsyncAux op r d a = (.error e, [.invoke (a + 1) (.error e)]) := by
  rw [retryAsyncAux.eq_def, hop]
  simp [h]

/-- Unfolding equation of `retryAsyncAux` when the current invocation fails
below the bound. -/
theorem retryAsyncAux_err_next {op : Nat → Except ε α} {r d a : Nat} {e : ε}
    (hop : op (a + 1) = .error e) (h : ¬ a + 1 ≥ r) :
    retryAsyncAux op r d a =
      ((retryAsyncAux op r d (a + 1)).1,
        .invoke (a + 1) (.error e) :: .delay d ::
          (retryAsyncAux op r d (a + 1)).2) := by
  rw [retryAsyncAux.eq_def, hop]
  simp [h]

@[simp]
theorem invokeCount_nil : invokeCount ([] : List (REvent ε α)) = 0 := rfl

@[simp]
theorem invokeCount_cons_invoke (c : Nat) (o : Except ε α)
    (t : List (REvent ε α)) :
    invokeCount (.invoke c o :: t) = invokeCount t + 1 := by
  simp [invokeCount, List.countP_cons, isInvoke]

@[simp]
theorem invokeCount_cons_delay (m : Nat) (t : List (REvent ε α)) :
    invokeCount (.delay m :: t) = invokeCount t := by
  simp [invokeCount, List.countP_cons, isInvoke]

@[simp]
theorem delayCount_nil : delayCount ([] : List (REvent ε α)) = 0 := rfl

@[simp]
theorem delayCount_cons_invoke (c : Nat) (o : Except ε α)
    (t : List (REvent ε α)) :
    delayCount (.invoke c o :: t) = delayCount t := by
  simp [delayCount, List.countP_cons, isDelay]

@[simp]
theorem delayCount_cons_delay (m : Nat) (t : List (REvent ε α)) :
    delayCount (.delay m :: t) = delayCount t + 1 := by
  simp [delayCount, List.countP_cons, isDelay]

@[simp]
theorem invokeAttempts_nil : invokeAttempts ([] : List (REvent ε α)) = [] :=
  rfl

@[simp]
theorem invokeAttempts_cons_invoke (c : Nat) (o : Except ε α)
    (t : List (REvent ε α)) :
    invokeAttempts (.invoke c o :: t) = c :: invokeAttempts t := by
  simp [invokeAttempts, List.filterMap_cons]

@[simp]
theorem invokeAttempts_cons_delay (m : Nat) (t : List (REvent ε α)) :
    invokeAttempts (.delay m :: t) = invokeAttempts t := by
  simp [invokeAttempts, List.filterMap_cons]

/-- The two retry loops compute the same result-and-trace function from any
entry value of the counter. -/
theorem retryAsyncAux_eq (op : Nat → Except ε α) (r d : Nat) :
    ∀ a, retryAsyncAux op r d a = withRetryAux op r d a := by
  intro a
  refine withRetryAux.induct op r d
    (fun a => retryAsyncAux op r d a = withRetryAux op r d a) ?_ ?_ ?_ a
  · intro x v hop
    rw [retryAsyncAux_ok hop, withRetryAux_ok hop]
  · intro x e hop h
    rw [retryAsyncAux_err_last hop h, withRetryAux_err_last hop h]
  · intro x e hop h ih
    rw [retryAsyncAux_err_next hop h, withRetryAux_err_next hop h, ih]

/-- Exhaustion behaviour of the retry loop, generalised over the entry value
of the counter: when every attempt from the next one through `n` fails, the
loop returns the outcome of attempt `n` itself, performs `n - a`
invocations and `n - a - 1` sleeps, and its last event is the final
invocation (so no sleep follows the final failure). -/
theorem withRetryAux_exhaust (op : Nat → Except ε α) (n d : Nat) :
    ∀ a, a < n → (∀ i, a + 1 ≤ i → i ≤ n → (op i).isOk = false) →
      (withRetryAux op n d a).1 = op n ∧
      invokeCount (withRetryAux op n d a).2 = n - a ∧
      delayCount (withRetryAux op n d a).2 = n - a - 1 ∧
      (withRetryAux op n d a).2.getLast? = some (.invoke n (op n)) := by
  intro a
  refine withRetryAux.induct op n d
    (fun a => a < n → (∀ i, a + 1 ≤ i → i ≤ n → (op i).isOk = false) →
      (withRetryAux op n d a).1 = op n ∧
      invokeCount (withRetryAux op n d a).2 = n - a ∧
      delayCount (withRetryAux op n d a).2 = n - a - 1 ∧
      (withRetryAux op n d a).2.getLast? = some (.invoke n (op n))) ?_ ?_ ?_ a
  · intro x v hop hx hf
    have h1 := hf (x + 1) (by omega) (by omega)
    rw [hop] at h1
    simp [Except.isOk, Except.toBool] at h1
  · intro x e hop h hx hf
    have hxn : n = x + 1 := by omega
    subst hxn
    rw [withRetryAux_err_last hop h]
    refine ⟨hop.symm, by simp <;> omega, by simp <;> omega, ?_⟩
    rw [hop]
    rfl
  · intro x e hop h ih hx hf
    have hx1 : x + 1 < n := by omega
    obtain ⟨ih1, ih2, ih3, ih4⟩ := ih hx1 (fun i hi1 hi2 => hf i (by omega) hi2)
    rw [withRetryAux_err_next hop h]
    refine ⟨ih1, by simp [ih2] <;> omega, by simp [ih3] <;> omega, ?_⟩
    have hne : (withRetryAux op n d (x + 1)).2 ≠ [] := by
      intro hnil
      rw [hnil] at ih4
      simp at ih4
    obtain ⟨b, L, hbl⟩ := List.exists_cons_of_ne_nil hne
    rw [hbl] at ih4 ⊢
    rw [List.getLast?_cons_cons, List.getLast?_cons_cons]
    exact ih4

/-- Eventual-success behaviour of the retry loop, generalised over the entry
value of the counter: when attempts `a+1 .. k-1` fail and attempt `k` (with
`k ≤ n`) succeeds with `v`, the loop returns `v`, performs `k - a`
invocations and `k - a - 1` sleeps, and every sleep it performs has the
configured duration. -/
theorem withRetryAux_success (op : Nat → Except ε α) (n d k : Nat) (v : α) :
    ∀ a, a < k → k ≤ n →
      (∀ i, a + 1 ≤ i → i < k → (op i).isOk = false) →
      op k = .ok v →
      (withRetryAux op n d a).1 = .ok v ∧
      invokeCount (withRetryAux op n d a).2 = k - a ∧
      delayCount (withRetryAux op n d a).2 = k - a - 1 ∧
      (∀ e ∈ (withRetryAux op n d a).2, isDelay e = true → e = .delay d) := by
  intro a
  refine withRetryAux.induct op n d
    (fun a => a < k → k ≤ n →
      (∀ i, a + 1 ≤ i → i < k → (op i).isOk = false) →
      op k = .ok v →
      (withRetryAux op n d a).1 = .ok v ∧
      invokeCount (withRetryAux op n d a).2 = k - a ∧
      delayCount (withRetryAux op n d a).2 = k - a - 1 ∧
      (∀ e ∈ (withRetryAux op n d a).2, isDelay e = true → e = .delay d)) ?_ ?_ ?_ a
  · intro x val hop hx hkn hf hs
    have hxk : k = x + 1 := by
      by_contra hne
      have h1 := hf (x + 1) (by omega) (by omega)
      rw [hop] at h1
      simp [Except.isOk, Except.toBool] at h1
    subst hxk
    rw [hop] at hs
    have hv : val = v := by injection hs
    subst hv
    rw [withRetryAux_ok hop]
    refine ⟨rfl, by simp <;> omega, by simp <;> omega, ?_⟩
    intro e he hd
    simp at he
    subst he
    simp [isDelay] at hd
  · intro x e hop h hx hkn hf hs
    have hxk : k = x + 1 := by omega
    subst hxk
    rw [hop] at hs
    exact absurd hs (by simp)
  · intro x e hop h ih hx hkn hf hs
    have hxk : x + 1 < k := by
      rcases Nat.lt_or_ge (x + 1) k with h1 | h1
      · exact h1
      · have hk1 : k = x + 1 := by omega
        rw [hk1, hop] at hs
        exact absurd hs (by simp)
    obtain ⟨ih1, ih2, ih3, ih4⟩ :=
      ih hxk hkn (fun i hi1 hi2 => hf i (by omega) hi2) hs
    rw [withRetryAux_err_next hop h]
    refine ⟨ih1, by simp [ih2] <;> omega, by simp [ih3] <;> omega, ?_⟩
    intro ev hev hd
    simp only [List.mem_cons] at hev
    rcases hev with hev | hev | hev
    · subst hev
      simp [isDelay] at hd
    · subst hev
      rfl
    · exact ih4 ev hev hd

/-- Bounds and termination shape of the retry loop, generalised over the
entry value of the counter: starting below the bound, the loop performs
between 1 and `n - a` invocations, its last event is an invocation whose
outcome is the returned result, and a failing overall result is only
produced once the counter has reached the bound `n`. -/
theorem withRetryAux_bounds (op : Nat → Except ε α) (n d : Nat) :
    ∀ a, a < n →
      1 ≤ invokeCount (withRetryAux op n d a).2 ∧
      invokeCount (withRetryAux op n d a).2 ≤ n - a ∧
      (∃ c, (withRetryAux op n d a).2.getLast? =
        some (.invoke c (withRetryAux op n d a).1)) ∧
      (∀ e, (withRetryAux op n d a).1 = .error e →
        a + invokeCount (withRetryAux op n d a).2 = n) := by
  intro a
  refine withRetryAux.induct op n d
    (fun a => a < n →
      1 ≤ invokeCount (withRetryAux op n d a).2 ∧
      invokeCount (withRetryAux op n d a).2 ≤ n - a ∧
      (∃ c, (withRetryAux op n d a).2.getLast? =
        some (.invoke c (withRetryAux op n d a).1)) ∧
      (∀ e, (withRetryAux op n d a).1 = .error e →
        a + invokeCount (withRetryAux op n d a).2 = n)) ?_ ?_ ?_ a
  · intro x v hop hx
    rw [withRetryAux_ok hop]
    refine ⟨by simp, by simp <;> omega, ⟨x, rfl⟩, ?_⟩
    intro e he
    exact absurd he (by simp)
  · intro x e hop h hx
    rw [withRetryAux_err_last hop h]
    refine ⟨by simp, by simp <;> omega, ⟨x + 1, rfl⟩, ?_⟩
    intro e' he'
    simp
    omega
  · intro x e hop h ih hx
    have hx1 : x + 1 < n := by omega
    obtain ⟨ih1, ih2, ⟨c, ihc⟩, ih4⟩ := ih hx1
    rw [withRetryAux_err_next hop h]
    have hne : (withRetryAux op n d (x + 1)).2 ≠ [] := by
      intro hnil
      rw [hnil] at ih1
      simp at ih1
    obtain ⟨b, L, hbl⟩ := List.exists_cons_of_ne_nil hne
    refine ⟨by simp <;> omega, by simp <;> omega, ⟨c, ?_⟩, ?_⟩
    · rw [hbl] at ihc ⊢
      rw [List.getLast?_cons_cons, List.getLast?_cons_cons]
      exact ihc
    · intro e' he'
      have hq := ih4 e' he'
      simp
      omega

/-- Counter trajectory of the retry loop, generalised over the entry value
`a` of the counter: the recorded counter values are the consecutive values
`a+1, a+2, ...` for the failed invocations, and a final successful
invocation repeats the preceding counter value instead of advancing it
(the `Ok` arm of the source performs no increment). -/
theorem withRetryAux_attempts (op : Nat → Except ε α) (n d : Nat) :
    ∀ a,
      (∀ v, (withRetryAux op n d a).1 = .ok v →
        invokeAttempts (withRetryAux op n d a).2 =
          List.range' (a + 1) (invokeCount (withRetryAux op n d a).2 - 1) ++
            [a + (invokeCount (withRetryAux op n d a).2 - 1)]) ∧
      (∀ e, (withRetryAux op n d a).1 = .error e →
        invokeAttempts (withRetryAux op n d a).2 =
          List.range' (a + 1) (invokeCount (withRetryAux op n d a).2)) := by
  intro a
  refine withRetryAux.induct op n d
    (fun a =>
      (∀ v, (withRetryAux op n d a).1 = .ok v →
        invokeAttempts (withRetryAux op n d a).2 =
          List.range' (a + 1) (invokeCount (withRetryAux op n d a).2 - 1) ++
            [a + (invokeCount (withRetryAux op n d a).2 - 1)]) ∧
      (∀ e, (withRetryAux op n d a).1 = .error e →
        invokeAttempts (withRetryAux op n d a).2 =
          List.range' (a + 1) (invokeCount (withRetryAux op n d a).2))) ?_ ?_ ?_ a
  · intro x v hop
    rw [withRetryAux_ok hop]
    constructor
    · intro v' hv'
      simp
    · intro e' he'
      simp at he'
  · intro x e hop h
    rw [withRetryAux_err_last hop h]
    constructor
    · intro v' hv'
      simp at hv'
    · intro e' he'
      simp [List.range'_one]
  · intro x e hop h ih
    have hx1 : x + 1 < n := by omega
    have hpos := (withRetryAux_bounds op n d (x + 1) hx1).1
    obtain ⟨m, hm⟩ : ∃ m, invokeCount (withRetryAux op n d (x + 1)).2 = m + 1 :=
      ⟨invokeCount (withRetryAux op n d (x + 1)).2 - 1, by omega⟩
    have h1 : (withRetryAux op n d x).1 = (withRetryAux op n d (x + 1)).1 := by
      rw [withRetryAux_err_next hop h]
    have h2 : (withRetryAux op n d x).2 =
        .invoke (x + 1) (.error e) :: .delay d ::
          (withRetryAux op n d (x + 1)).2 := by
      rw [withRetryAux_err_next hop h]
    rw [h1, h2]
    constructor
    · intro v hv
      have e1 := ih.1 v hv
      rw [hm] at e1
      have q1 : m + 1 - 1 = m := by omega
      rw [q1] at e1
      simp only [invokeAttempts_cons_invoke, invokeAttempts_cons_delay,
        invokeCount_cons_invoke, invokeCount_cons_delay, hm]
      rw [e1]
      have q2 : m + 1 + 1 - 1 = m + 1 := by omega
      rw [q2, List.range'_succ]
      have q3 : x + 1 + m = x + (m + 1) := by omega
      simp [q3]
    · intro e' he'
      have e2 := ih.2 e' he'
      rw [hm] at e2
      simp only [invokeAttempts_cons_invoke, invokeAttempts_cons_delay,
        invokeCount_cons_invoke, invokeCount_cons_delay, hm]
      rw [e2]
      simp [List.range'_succ]

/-- Lookup misses every association list that does not bind the key. -/
theorem objLookup_eq_none_of_not_mem (fs : List (String × Json)) (k : String)
    (h : k ∉ fs.map Prod.fst) : objLookup fs k = none := by
  induction fs with
  | nil => rfl
  | cons p rest ih =>
      obtain ⟨k0, v0⟩ := p
      simp only [List.map_cons, List.mem_cons] at h
      push_neg at h
      simp only [objLookup]
      rw [if_neg fun hq => h.1 hq.symm]
      exact ih h.2

/-- Lookup also misses when the Boolean key test fails. -/
theorem objLookup_eq_none_of_containsKey (fs : List (String × Json))
    (k : String) (h : containsKey fs k = false) : objLookup fs k = none := by
  induction fs with
  | nil => rfl
  | cons p rest ih =>
      obtain ⟨k0, v0⟩ := p
      simp only [containsKey] at h
      by_cases hk : k0 = k
      · rw [if_pos hk] at h
        exact absurd h (by simp)
      · rw [if_neg hk] at h
        simp only [objLookup]
        rw [if_neg hk]
        exact ih h

/-- Lookup distributes over append, first list first. -/
theorem objLookup_append (fs gs : List (String × Json)) (k : String) :
    objLookup (fs ++ gs) k =
      match objLookup fs k with
      | some v => some v
      | none => objLookup gs k := by
  induction fs with
  | nil => simp [objLookup]
  | cons p rest ih =>
      obtain ⟨k0, v0⟩ := p
      by_cases hk : k0 = k
      · simp [objLookup, hk]
      · simp [objLookup, hk, ih]

/-- Lookup after `replaceKey`: the replaced key reads the new value when it
was bound at all, and every other key is untouched. -/
theorem objLookup_replaceKey (fs : List (String × Json)) (k : String)
    (v : Json) (k' : String) :
    objLookup (replaceKey fs k v) k' =
      if k' = k then (if containsKey fs k then some v else none)
      else objLookup fs k' := by
  induction fs with
  | nil =>
      simp only [replaceKey, objLookup, containsKey]
      by_cases hk : k' = k
      · simp [hk]
      · simp [hk]
  | cons p rest ih =>
      obtain ⟨k0, v0⟩ := p
      by_cases h0 : k0 = k
      · subst h0
        simp only [replaceKey, if_pos rfl, containsKey]
        by_cases hk : k' = k0
        · subst hk
          simp [objLookup]
        · have hk2 : ¬ k0 = k' := fun hq => hk hq.symm
          simp only [objLookup, if_neg hk2, if_neg hk, ih]
      · simp only [replaceKey, if_neg h0]
        by_cases hk : k0 = k'
        · subst hk
          rw [if_neg h0]
          simp [objLookup]
        · simp only [objLookup, containsKey, if_neg hk, if_neg h0, ih]

/-- Lookup after `objInsert`: the inserted key reads the inserted value and
every other key is untouched, whether or not the key was already bound. -/
theorem objLookup_objInsert (fs : List (String × Json)) (k : String)
    (v : Json) (k' : String) :
    objLookup (objInsert fs k v) k' =
      if k' = k then some v else objLookup fs k' := by
  unfold objInsert
  by_cases hc : containsKey fs k = true
  · rw [if_pos hc, objLookup_replaceKey]
    by_cases hk : k' = k
    · simp [hk, hc]
    · simp [hk]
  · rw [if_neg hc, objLookup_append]
    have hc' : containsKey fs k = false := by simpa using hc
    by_cases hk : k' = k
    · subst hk
      rw [objLookup_eq_none_of_containsKey fs k' hc']
      simp [objLookup]
    · cases hl : objLookup fs k' with
      | some w => simp [hl, hk]
      | none =>
          have hk2 : ¬ k = k' := fun hq => hk hq.symm
          simp [hl, hk, hk2, objLookup]

/-- Lookup after folding `objInsert` over a second object with
pairwise-distinct keys: a key bound by the second object reads its value
there, any other key falls through to the accumulator. -/
theorem objLookup_foldl_insert (bf : List (String × Json)) :
    ∀ acc : List (String × Json), (bf.map Prod.fst).Nodup → ∀ k,
      objLookup (bf.foldl (fun m p => objInsert m p.1 p.2) acc) k =
        match objLookup bf k with
        | some v => some v
        | none => objLookup acc k := by
  induction bf with
  | nil =>
      intro acc _ k
      simp [objLookup]
  | cons p rest ih =>
      intro acc hnd k
      obtain ⟨k0, v0⟩ := p
      simp only [List.map_cons, List.nodup_cons] at hnd
      obtain ⟨hk0, hrest⟩ := hnd
      rw [List.foldl_cons]
      rw [ih (objInsert acc k0 v0) hrest k]
      by_cases hk : k0 = k
      · subst hk
        have hnone : objLookup rest k0 = none :=
          objLookup_eq_none_of_not_mem rest k0 hk0
        simp only [hnone, objLookup, if_pos rfl]
        rw [objLookup_objInsert]
        simp
      · simp only [objLookup, if_neg hk]
        cases hl : objLookup rest k with
        | some w => simp [hl]
        | none =>
            simp only [hl]
            rw [objLookup_objInsert]
            rw [if_neg fun hq => hk hq.symm]

/-- Failure schedule used by witnesses: every attempt fails with its own
attempt number as the error value. -/
def allFailOp : Nat → Except Nat Nat := fun i => .error i

/-- Failure schedule that agrees with `allFailOp` on attempt 2 but carries a
different error value on every other attempt. -/
def allFailOp2 : Nat → Except Nat Nat :=
  fun i => if i = 2 then .error 2 else .error 99

/-- Schedule of the concrete scenario of the specification: attempts 1 and 2
fail with "fail", attempt 3 succeeds with "success". -/
def eventualOp : Nat → Except String String :=
  fun i => if i < 3 then .error "fail" else .ok "success"

/-- Schedule that succeeds immediately on every attempt. -/
def alwaysOkOp : Nat → Except Nat Nat := fun _ => .ok 7

/-- C1: for every policy with max_attempts at least 1 and every operation
failing on all attempts, with_retry! returns the failure value produced by
the final attempt (attempt number max_attempts), performs exactly
max_attempts invocations and exactly max_attempts - 1 delays, and no delay
occurs after the final failed attempt (the last recorded event is that
final invocation). -/
theorem with_retry_exhaustion (op : Nat → Except ε α) (n d : Nat)
    (hn : 1 ≤ n) (hf : ∀ i, 1 ≤ i → i ≤ n → (op i).isOk = false) :
    (withRetry op n d).1 = op n ∧
    invokeCount (withRetry op n d).2 = n ∧
    delayCount (withRetry op n d).2 = n - 1 ∧
    (withRetry op n d).2.getLast? = some (.invoke n (op n)) := by
  have h := withRetryAux_exhaust op n d 0 (by omega)
    (fun i h1 h2 => hf i (by omega) h2)
  simpa [withRetry] using h

/-- Witness for C1 at max_attempts = 2, delay 5. -/
theorem with_retry_exhaustion_witness :
    1 ≤ 2 ∧
    ((withRetry allFailOp 2 5).1 = allFailOp 2 ∧
      invokeCount (withRetry allFailOp 2 5).2 = 2 ∧
      delayCount (withRetry allFailOp 2 5).2 = 2 - 1 ∧
      (withRetry allFailOp 2 5).2.getLast? =
        some (.invoke 2 (allFailOp 2))) :=
  ⟨by omega,
    with_retry_exhaustion allFailOp 2 5 (by omega) (fun i h1 h2 => rfl)⟩

/-- C2: for every policy with max_attempts at least 1 and every operation
failing on attempts 1..k-1 and succeeding on attempt k with k at most
max_attempts (k = 1 being immediate success), with_retry! returns that
success value, performs exactly k invocations and exactly k - 1 delays,
and every delay it performs has the configured duration. -/
theorem with_retry_eventual_success (op : Nat → Except ε α) (n d k : Nat)
    (v : α) (hk1 : 1 ≤ k) (hkn : k ≤ n)
    (hf : ∀ i, 1 ≤ i → i < k → (op i).isOk = false)
    (hs : op k = .ok v) :
    (withRetry op n d).1 = .ok v ∧
    invokeCount (withRetry op n d).2 = k ∧
    delayCount (withRetry op n d).2 = k - 1 ∧
    (∀ e ∈ (withRetry op n d).2, isDelay e = true → e = .delay d) := by
  have h := withRetryAux_success op n d k v 0 (by omega) hkn
    (fun i h1 h2 => hf i (by omega) h2) hs
  simpa [withRetry] using h

/-- Witness for C2 at the concrete scenario of the specification:
max_attempts = 3, delay 10, failures on attempts 1 and 2, success on
attempt 3. -/
theorem with_retry_eventual_success_witness :
    (1 ≤ 3 ∧ 3 ≤ 3) ∧
    ((withRetry eventualOp 3 10).1 = .ok "success" ∧
      invokeCount (withRetry eventualOp 3 10).2 = 3 ∧
      delayCount (withRetry eventualOp 3 10).2 = 3 - 1 ∧
      (∀ e ∈ (withRetry eventualOp 3 10).2, isDelay e = true →
        e = .delay 10)) :=
  ⟨⟨by omega, by omega⟩,
    with_retry_eventual_success eventualOp 3 10 3 "success" (by omega)
      (by omega)
      (fun i h1 h2 => by
        unfold eventualOp
        rw [if_pos h2]
        rfl)
      rfl⟩

/-- C3: for every policy and every operation with a fixed per-attempt
schedule, retry_async! produces the same final result value and the same
number of operation invocations as with_retry!. -/
theorem retry_async_equiv (op : Nat → Except ε α) (n d : Nat) :
    (retryAsync op n d).1 = (withRetry op n d).1 ∧
    invokeCount (retryAsync op n d).2 = invokeCount (withRetry op n d).2 := by
  unfold retryAsync withRetry
  rw [retryAsyncAux_eq]
  exact ⟨rfl, rfl⟩

/-- C4: when all attempts fail, the retry executor returns the failure value
produced by the last attempt verbatim, and failure values of earlier
attempts have no effect on the returned value: two all-failing schedules
that agree on the final attempt produce the same result, whatever their
earlier errors and delays. -/
theorem with_retry_last_error_verbatim (op op' : Nat → Except ε α)
    (n d d' : Nat) (hn : 1 ≤ n)
    (hf : ∀ i, 1 ≤ i → i ≤ n → (op i).isOk = false)
    (hf' : ∀ i, 1 ≤ i → i ≤ n → (op' i).isOk = false)
    (hlast : op n = op' n) :
    (withRetry op n d).1 = op n ∧
    (withRetry op n d).1 = (withRetry op' n d').1 := by
  have h1 := (withRetryAux_exhaust op n d 0 (by omega)
    (fun i a b => hf i (by omega) b)).1
  have h2 := (withRetryAux_exhaust op' n d' 0 (by omega)
    (fun i a b => hf' i (by omega) b)).1
  refine ⟨h1, ?_⟩
  unfold withRetry
  rw [h1, h2]
  exact hlast

/-- Witness for C4 at max_attempts = 2 with two schedules differing on
attempt 1 and on the delay, agreeing on attempt 2. -/
theorem with_retry_last_error_verbatim_witness :
    (1 ≤ 2 ∧ allFailOp 2 = allFailOp2 2) ∧
    ((withRetry allFailOp 2 5).1 = allFailOp 2 ∧
      (withRetry allFailOp 2 5).1 = (withRetry allFailOp2 2 7).1) :=
  ⟨⟨by omega, rfl⟩,
    with_retry_last_error_verbatim allFailOp allFailOp2 2 5 7 (by omega)
      (fun i h1 h2 => rfl)
      (fun i h1 h2 => by
        unfold allFailOp2
        split
        · rfl
        · rfl)
      rfl⟩

/-- C5: for every policy with max_attempts at least 1 and every operation,
one call performs between 1 and max_attempts invocations (and retry_async!
performs the same number); the session ends immediately after the final
invocation, whose outcome is the returned result, and a failure result is
only returned once the invocation count has reached max_attempts. -/
theorem with_retry_attempt_bounds (op : Nat → Except ε α) (n d : Nat)
    (hn : 1 ≤ n) :
    1 ≤ invokeCount (withRetry op n d).2 ∧
    invokeCount (withRetry op n d).2 ≤ n ∧
    invokeCount (retryAsync op n d).2 = invokeCount (withRetry op n d).2 ∧
    (∃ c, (withRetry op n d).2.getLast? =
      some (.invoke c (withRetry op n d).1)) ∧
    (∀ e, (withRetry op n d).1 = .error e →
      invokeCount (withRetry op n d).2 = n) := by
  unfold withRetry retryAsync
  rw [retryAsyncAux_eq]
  obtain ⟨b1, b2, b3, b4⟩ := withRetryAux_bounds op n d 0 (by omega)
  exact ⟨b1, by omega, rfl, b3, fun e he => by have := b4 e he; omega⟩

/-- Witness for C5 at max_attempts = 1 with an operation that succeeds
immediately. -/
theorem with_retry_attempt_bounds_witness :
    1 ≤ 1 ∧
    (1 ≤ invokeCount (withRetry alwaysOkOp 1 3).2 ∧
      invokeCount (withRetry alwaysOkOp 1 3).2 ≤ 1 ∧
      invokeCount (retryAsync alwaysOkOp 1 3).2 =
        invokeCount (withRetry alwaysOkOp 1 3).2 ∧
      (∃ c, (withRetry alwaysOkOp 1 3).2.getLast? =
        some (.invoke c (withRetry alwaysOkOp 1 3).1)) ∧
      (∀ e, (withRetry alwaysOkOp 1 3).1 = .error e →
        invokeCount (withRetry alwaysOkOp 1 3).2 = 1)) :=
  ⟨by omega, with_retry_attempt_bounds alwaysOkOp 1 3 (by omega)⟩

/-- C6: with max_attempts = 0 the executor still performs one attempt and
behaves exactly as with max_attempts = 1: the operation runs once, its
outcome (success or failure) is returned, and no delay is performed. -/
theorem with_retry_zero_retries (op : Nat → Except ε α) (d : Nat) :
    withRetry op 0 d = withRetry op 1 d ∧
    (withRetry op 0 d).1 = op 1 ∧
    invokeCount (withRetry op 0 d).2 = 1 ∧
    delayCount (withRetry op 0 d).2 = 0 := by
  unfold withRetry
  cases hop : op 1 with
  | ok v =>
      have e0 : withRetryAux op 0 d 0 = (.ok v, [.invoke 0 (.ok v)]) :=
        withRetryAux_ok hop
      have e1 : withRetryAux op 1 d 0 = (.ok v, [.invoke 0 (.ok v)]) :=
        withRetryAux_ok hop
      rw [e0, e1]
      simp
  | error e =>
      have e0 : withRetryAux op 0 d 0 = (.error e, [.invoke 1 (.error e)]) :=
        withRetryAux_err_last hop (by omega)
      have e1 : withRetryAux op 1 d 0 = (.error e, [.invoke 1 (.error e)]) :=
        withRetryAux_err_last hop (by omega)
      rw [e0, e1]
      simp

/-- C7 counterexample: the claim asserts the counter equals k after the
k-th invocation whether it succeeded or failed; with an operation that
succeeds on attempt 1 (max_attempts = 3), exactly one invocation occurs and
the counter recorded after it is 0, not 1, because the Ok arm of the source
performs no increment. -/
theorem with_retry_counter_claim_cex :
    invokeCount (withRetry alwaysOkOp 3 10).2 = 1 ∧
    invokeAttempts (withRetry alwaysOkOp 3 10).2 = [0] ∧
    invokeAttempts (withRetry alwaysOkOp 3 10).2 ≠ [1] := by
  have e0 : withRetryAux alwaysOkOp 3 10 0 = (.ok 7, [.invoke 0 (.ok 7)]) :=
    withRetryAux_ok rfl
  unfold withRetry
  rw [e0]
  refine ⟨by simp, by simp, by simp⟩

/-- C7 as amended: the counter starts at 0 and is incremented exactly once
per failed invocation and left unchanged by a successful invocation, so the
recorded counter values are 1, 2, ..., m when the session ends in failure
after m invocations, and 1, 2, ..., m-1, m-1 when the m-th invocation
succeeds; the counter is never decremented. -/
theorem with_retry_counter_trajectory (op : Nat → Except ε α) (n d : Nat) :
    (∀ v, (withRetry op n d).1 = .ok v →
      invokeAttempts (withRetry op n d).2 =
        List.range' 1 (invokeCount (withRetry op n d).2 - 1) ++
          [invokeCount (withRetry op n d).2 - 1]) ∧
    (∀ e, (withRetry op n d).1 = .error e →
      invokeAttempts (withRetry op n d).2 =
        List.range' 1 (invokeCount (withRetry op n d).2)) := by
  have h := withRetryAux_attempts op n d 0
  unfold withRetry
  constructor
  · intro v hv
    have hh := h.1 v hv
    simpa using hh
  · intro e he
    have hh := h.2 e he
    simpa using hh

/-- Witness for the amended C7 at max_attempts = 2 with an operation that
fails on both attempts: the recorded counter values are 1, 2. -/
theorem with_retry_counter_trajectory_witness :
    (withRetry allFailOp 2 5).1 = Except.error 2 ∧
    invokeAttempts (withRetry allFailOp 2 5).2 =
      List.range' 1 (invokeCount (withRetry allFailOp 2 5).2) := by
  have hres : (withRetry allFailOp 2 5).1 = Except.error 2 := by
    simp [withRetry, withRetryAux, allFailOp]
  exact ⟨hres, (with_retry_counter_trajectory allFailOp 2 5).2 2 hres⟩

/-- C8: merging two JSON objects (with the pairwise-distinct keys of real
JSON maps) yields an object whose key set is the union of the two key sets;
a key bound by the second object reads the second object's value verbatim
(so no recursive merging of nested values happens), and a key bound only by
the first object keeps the first object's value. -/
theorem json_merge_object_union (af bf : List (String × Json))
    (ha : (af.map Prod.fst).Nodup) (hb : (bf.map Prod.fst).Nodup) :
    ∃ mf, json_merge (Json.obj af) (Json.obj bf) = Json.obj mf ∧
      (∀ k, objLookup mf k =
        match objLookup bf k with
        | some v => some v
        | none => objLookup af k) ∧
      (∀ k, (objLookup mf k).isSome =
        ((objLookup af k).isSome || (objLookup bf k).isSome)) := by
  have hm : json_merge (Json.obj af) (Json.obj bf) =
      Json.obj (bf.foldl (fun acc kv => objInsert acc kv.1 kv.2) af) := rfl
  refine ⟨bf.foldl (fun acc kv => objInsert acc kv.1 kv.2) af, hm, ?_, ?_⟩
  · intro k
    exact objLookup_foldl_insert bf af hb k
  · intro k
    rw [objLookup_foldl_insert bf af hb k]
    cases h : objLookup bf k with
    | some v => simp
    | none => simp

/-- First object of the documentation example of json_merge!. -/
def jsonA : List (String × Json) := [("a", .num 1), ("b", .num 2)]

/-- Second object of the documentation example of json_merge!. -/
def jsonB : List (String × Json) := [("b", .num 3), ("c", .num 4)]

/-- Witness for C8 at the documentation example. -/
theorem json_merge_object_union_witness :
    (jsonA.map Prod.fst).Nodup ∧ (jsonB.map Prod.fst).Nodup ∧
    (∃ mf, json_merge (Json.obj jsonA) (Json.obj jsonB) = Json.obj mf ∧
      (∀ k, objLookup mf k =
        match objLookup jsonB k with
        | some v => some v
        | none => objLookup jsonA k) ∧
      (∀ k, (objLookup mf k).isSome =
        ((objLookup jsonA k).isSome || (objLookup jsonB k).isSome))) :=
  ⟨by decide, by decide,
    json_merge_object_union jsonA jsonB (by decide) (by decide)⟩

/-- C9: when at least one of the two arguments is not a JSON object,
json_merge! performs no merge and returns the first argument unchanged. -/
theorem json_merge_non_object (a b : Json)
    (h : a.isObj = false ∨ b.isObj = false) :
    json_merge a b = a := by
  cases a with
  | obj af =>
      cases b with
      | obj bf => exact absurd h (by simp [Json.isObj])
      | null => rfl
      | bool x => rfl
      | num x => rfl
      | str x => rfl
      | arr x => rfl
  | null => rfl
  | bool x => rfl
  | num x => rfl
  | str x => rfl
  | arr x => rfl

/-- Witness for C9: a number merged with an object is returned unchanged. -/
theorem json_merge_non_object_witness :
    ((Json.num 1).isObj = false ∨
      (Json.obj [("a", Json.num 2)]).isObj = false) ∧
    json_merge (Json.num 1) (Json.obj [("a", Json.num 2)]) = Json.num 1 :=
  ⟨Or.inl rfl,
    json_merge_non_object (Json.num 1) (Json.obj [("a", Json.num 2)])
      (Or.inl rfl)⟩

/-- C10: time_it! and log_duration! return exactly the value produced by
the wrapped block; the elapsed-time report only appends to the output or
tracing log. -/
theorem timing_wrappers_return_block_value (label : String)
    (block : World → β × World) (w : World) :
    (time_it label block w).1 = (block w).1 ∧
    (log_duration label block w).1 = (block w).1 :=
  ⟨rfl, rfl⟩
